import Mathlib

/-!
# Verification of the bunvim RPC session engine

A shallow embedding of the bunvim msgpack-RPC session engine.  The wire
message shapes are transcribed from `src/types.ts` (`MessageType`,
`RPCRequest`, `RPCResponse`, `RPCNotification`, `RPCMessage`).  The runtime
engine (`attach`) is not part of the visible sources, so its operations are
modelled from the specification (sections 3-5 and 7 of the design document);
each such definition carries a doc comment starting `Modelled from the spec:`.
-/

/-- A wire value, standing in for the opaque msgpack values carried by the
protocol: nil, booleans, integers, strings and arrays. -/
inductive Value where
  | nil : Value
  | bool (b : Bool) : Value
  | int (n : Int) : Value
  | str (s : String) : Value
  | arr (vs : List Value) : Value

/-- The three wire message shapes, transcribed from `src/types.ts`:
`RPCRequest = [0, id, method, args]`, `RPCResponse = [1, id, error, result]`,
`RPCNotification = [2, method, args]`.  Ids are `uint32`, carried as `Nat`;
the response `error` field is `string | null`, carried as `Option String`. -/
inductive RPCMessage where
  | request (id : Nat) (method : String) (args : List Value) : RPCMessage
  | response (id : Nat) (error : Option String) (result : Value) : RPCMessage
  | notification (method : String) (args : List Value) : RPCMessage

/-- The wire encoding of the `error` slot of a Response: `null` is msgpack
nil, otherwise the error string itself (`error: string | null`). -/
def encodeError : Option String → Value
  | none => .nil
  | some s => .str s

/-- The wire form of each message, following the fixed-arity tagged tuples of
`src/types.ts`: a leading integer discriminant 0/1/2, then the fields in
order. -/
def encodeMessage : RPCMessage → Value
  | .request id method args => .arr [.int 0, .int id, .str method, .arr args]
  | .response id error result => .arr [.int 1, .int id, encodeError error, result]
  | .notification method args => .arr [.int 2, .str method, .arr args]

/-- Decode the error slot of a Response: accepted iff it is nil or a string
(`error: string | null`). -/
def decodeError : Value → Option (Option String)
  | .nil => some none
  | .str s => some (some s)
  | _ => none

/-- Recognise a wire value as one of the three `RPCMessage` shapes of
`src/types.ts`; any other arity, discriminant or field type is rejected. -/
def decodeMessage : Value → Option RPCMessage
  | .arr [.int t, .int i, x, y] =>
      if t = 0 then
        match x, y with
        | .str method, .arr args =>
            if 0 ≤ i then some (.request i.toNat method args) else none
        | _, _ => none
      else if t = 1 then
        if 0 ≤ i then
          (decodeError x).map (fun e => .response i.toNat e y)
        else none
      else none
  | .arr [.int t, .str method, .arr args] =>
      if t = 2 then some (.notification method args) else none
  | _ => none

/-- Outcome of a `call()`: the decoded `result` on success, or an error
carrying the string message from the Response's `error` field. -/
inductive CallOutcome where
  | ok (v : Value) : CallOutcome
  | err (msg : String) : CallOutcome

/-- Whether a call outcome is a success. -/
def CallOutcome.isOk : CallOutcome → Bool
  | .ok _ => true
  | .err _ => false

/-- How a Response resolves the matching pending call: a non-null `error`
fails the call with that message, otherwise the call succeeds with `result`
(even if `result` is nil). -/
def mkOutcome (error : Option String) (result : Value) : CallOutcome :=
  match error with
  | some msg => .err msg
  | none => .ok result

/-- A request handler: receives the decoded args and either returns a result
or fails with a message (a thrown error in the TypeScript source). -/
def RequestHandler : Type := List Value → CallOutcome

/-- A notification handler: receives the decoded args and returns `true` to
signal its own removal (the truthy "remove" signal of `onNotification`). -/
def NotificationHandler : Type := List Value → Bool

/-- Association-list lookup by name (first match), modelling a string-keyed
map of handlers. -/
def assocGet {α : Type} : List (String × α) → String → Option α
  | [], _ => none
  | (k, v) :: rest, key => if k = key then some v else assocGet rest key

/-- Association-list update by name: replaces the existing entry for `key`
in place, or appends a fresh one. -/
def assocSet {α : Type} : List (String × α) → String → α → List (String × α)
  | [], key, v => [(key, v)]
  | (k, v') :: rest, key, v =>
      if k = key then (key, v) :: rest else (k, v') :: assocSet rest key v

/-- Connection lifecycle: `Connecting → Open → Detached`, terminal at
`Detached`. -/
inductive ConnState where
  | Connecting : ConnState
  | Open : ConnState
  | Detached : ConnState
deriving Repr, DecidableEq

/-- State of the memoized channel-id bootstrap: not yet requested, a
bootstrap call in flight with `waiters` concurrent callers sharing it, or the
cached channel id. -/
inductive BootState where
  | idle : BootState
  | inFlight (reqId : Nat) (waiters : Nat) : BootState
  | cached (chan : Nat) : BootState
deriving Repr, DecidableEq

/-- Modelled from the spec: the Session Engine state (the `attach`
implementation is absent from the visible sources).  It owns the
monotonically increasing request-id counter, the pending-request table, the
two handler registries, the memoized channel id, and the messages written to
the Transport (`wire`, in write order) together with the transport's
open/closed flag. -/
structure Engine where
  connState : ConnState
  nextId : Nat
  pending : List Nat
  notifHandlers : List (String × List (Nat × NotificationHandler))
  reqHandlers : List (String × RequestHandler)
  bootState : BootState
  wire : List RPCMessage
  transportClosed : Bool

/-- The engine as it stands right after `attach` succeeds: state `Open`,
fresh id counter, no pending calls, empty registries, channel id not yet
discovered, transport open. -/
def initEngine : Engine :=
  { connState := .Open
    nextId := 0
    pending := []
    notifHandlers := []
    reqHandlers := []
    bootState := .idle
    wire := []
    transportClosed := false }

/-- Result of starting a `call()`: either it failed immediately because the
engine is detached (no wire traffic), or a Request with the given fresh id
was written and is now pending. -/
inductive CallStart where
  | failedClosed : CallStart
  | started (id : Nat) : CallStart
deriving Repr, DecidableEq

/-- Modelled from the spec: `call(method, args)`.  After `detach()` a call
fails immediately with no wire traffic; otherwise the engine allocates the
next request id, registers it as pending, and writes the Request to the
Transport. -/
def Engine.call (e : Engine) (method : String) (args : List Value) :
    Engine × CallStart :=
  match e.connState with
  | .Detached => (e, .failedClosed)
  | _ =>
      ({ e with
          nextId := e.nextId + 1
          pending := e.pending ++ [e.nextId]
          wire := e.wire ++ [.request e.nextId method args] },
        .started e.nextId)

/-- Modelled from the spec: delivery of an incoming Response to the Dispatch
Router.  If the Response's id matches a pending call, that call (and only
that call) is removed from the table and resolved with the Response's own
error/result; correlation is solely by id. -/
def Engine.onResponse (e : Engine) (id : Nat) (error : Option String)
    (result : Value) : Engine × Option CallOutcome :=
  if id ∈ e.pending then
    ({ e with pending := e.pending.erase id }, some (mkOutcome error result))
  else (e, none)

/-- Modelled from the spec: deliver a list of Responses in the given wire
arrival order, collecting each resulting call resolution as a pair of the
request id and its outcome. -/
def Engine.deliverResponses (e : Engine) :
    List (Nat × Option String × Value) → Engine × List (Nat × CallOutcome)
  | [] => (e, [])
  | (i, error, result) :: rest =>
      let p := e.onResponse i error result
      let q := p.1.deliverResponses rest
      (q.1,
        (match p.2 with
          | some o => [(i, o)]
          | none => []) ++ q.2)

/-- Modelled from the spec: issue a batch of concurrent `call()`s, returning
the final engine and the request id of each call that was started, in issue
order. -/
def Engine.issueCalls (e : Engine) :
    List (String × List Value) → Engine × List Nat
  | [] => (e, [])
  | (method, args) :: rest =>
      let p := e.call method args
      match p.2 with
      | .started i =>
          let q := p.1.issueCalls rest
          (q.1, i :: q.2)
      | .failedClosed =>
          let q := p.1.issueCalls rest
          (q.1, q.2)

/-- Modelled from the spec: `detach()`.  Transitions the state to `Detached`,
closes the Transport, clears the pending table and both handler registries,
and resolves every pending call with a connection-closed error (returned as
the list of failed resolutions). -/
def Engine.detach (e : Engine) : Engine × List (Nat × CallOutcome) :=
  ({ e with
      connState := .Detached
      transportClosed := true
      pending := []
      notifHandlers := []
      reqHandlers := [] },
    e.pending.map (fun i => (i, .err "connection closed")))

/-- Modelled from the spec: `onRequest(method, callback)` stores exactly one
handler under `method`, silently replacing any prior handler. -/
def Engine.onRequest (e : Engine) (method : String) (h : RequestHandler) :
    Engine :=
  { e with reqHandlers := assocSet e.reqHandlers method h }

/-- Modelled from the spec: `onNotification(name, callback)` appends the
handler (tagged with a registration key so invocations can be tracked) to the
ordered list for `name`. -/
def Engine.onNotification (e : Engine) (name : String) (key : Nat)
    (h : NotificationHandler) : Engine :=
  let hs := (assocGet e.notifHandlers name).getD []
  { e with notifHandlers := assocSet e.notifHandlers name (hs ++ [(key, h)]) }

/-- Modelled from the spec: dispatch of an incoming Request.  The registered
handler (if any) runs on the decoded args; its result becomes the Response's
`result` with a null error, a handler failure becomes the Response's `error`
with the result slot nil, and a missing handler yields an unknown-method
error Response.  Exactly one Response, carrying the incoming id, is written
to the Transport. -/
def Engine.handleRequest (e : Engine) (id : Nat) (method : String)
    (args : List Value) : Engine :=
  let resp : RPCMessage :=
    match assocGet e.reqHandlers method with
    | some h =>
        match h args with
        | .ok r => .response id none r
        | .err msg => .response id (some msg) .nil
    | none => .response id (some ("unknown method " ++ method)) .nil
  { e with wire := e.wire ++ [resp] }

/-- Modelled from the spec: run every handler registered for one
notification, in registration order; a handler returning the removal signal
is dropped from the list afterwards.  Returns the surviving handlers and the
registration keys that were invoked, in order. -/
def runNotifHandlers (args : List Value) :
    List (Nat × NotificationHandler) → List (Nat × NotificationHandler) × List Nat
  | [] => ([], [])
  | (k, h) :: rest =>
      let remove := h args
      let q := runNotifHandlers args rest
      (if remove then q.1 else (k, h) :: q.1, k :: q.2)

/-- Modelled from the spec: dispatch of an incoming Notification.  All
currently registered handlers for the name run in order; those signalling
removal are deregistered afterwards.  Returns the keys of the handlers that
were invoked. -/
def Engine.handleNotification (e : Engine) (name : String) (args : List Value) :
    Engine × List Nat :=
  let hs := (assocGet e.notifHandlers name).getD []
  let q := runNotifHandlers args hs
  ({ e with notifHandlers := assocSet e.notifHandlers name q.1 }, q.2)

/-- Modelled from the spec: one invocation of `channelId()`.  With the value
already cached it returns it at once with no wire traffic; with a bootstrap
call already in flight the caller joins its waiters with no wire traffic;
otherwise it issues the single bootstrap call (`nvim_get_api_info`) and
becomes the first waiter.  `none` means the caller is suspended until the
bootstrap Response arrives. -/
def Engine.channelIdRequest (e : Engine) : Engine × Option Nat :=
  match e.bootState with
  | .cached n => (e, some n)
  | .inFlight rid w => ({ e with bootState := .inFlight rid (w + 1) }, none)
  | .idle =>
      ({ e with
          nextId := e.nextId + 1
          pending := e.pending ++ [e.nextId]
          wire := e.wire ++ [.request e.nextId "nvim_get_api_info" []]
          bootState := .inFlight e.nextId 1 },
        none)

/-- Modelled from the spec: a batch of `channelId()` invocations issued
before any bootstrap Response arrives, returning the engine and each
invocation's immediate result in order. -/
def Engine.channelIdCalls (e : Engine) : Nat → Engine × List (Option Nat)
  | 0 => (e, [])
  | k + 1 =>
      let p := e.channelIdRequest
      let q := p.1.channelIdCalls k
      (q.1, p.2 :: q.2)

/-- Modelled from the spec: arrival of the bootstrap Response carrying the
channel id assigned by the peer.  The extracted integer is cached permanently
and handed to every waiting caller; without a bootstrap in flight the
Response changes nothing. -/
def Engine.bootstrapResolve (e : Engine) (chan : Nat) : Engine × List Nat :=
  match e.bootState with
  | .inFlight rid w =>
      ({ e with bootState := .cached chan, pending := e.pending.erase rid },
        List.replicate w chan)
  | _ => (e, [])

/-- A Response the engine produces never pairs a non-null error with a
meaningful result: whenever the error field is set, the result slot is nil. -/
def goodResponse : RPCMessage → Prop := fun m =>
  match m with
  | .response _ (some _) r => r = Value.nil
  | _ => True

/-- A notification handler that signals its own removal (returns the truthy
removal signal). -/
def alwaysRemove : NotificationHandler := fun _ => true

/-- A notification handler that never signals removal. -/
def neverRemove : NotificationHandler := fun _ => false

/-- A fresh engine with two handlers registered for the notification
`"evt"`: key 0 signals removal, key 1 does not. -/
def twoHandlerEngine : Engine :=
  (initEngine.onNotification "evt" 0 alwaysRemove).onNotification "evt" 1 neverRemove

/-! ## Shared lemmas -/

theorem assocGet_assocSet {α : Type} (l : List (String × α)) (key : String)
    (v : α) : assocGet (assocSet l key v) key = some v := by
  induction l with
  | nil => simp [assocSet, assocGet]
  | cons hd tl ih =>
      obtain ⟨k, v'⟩ := hd
      by_cases hk : k = key <;> simp [assocSet, assocGet, hk, ih]

theorem decodeError_encodeError (e : Option String) :
    decodeError (encodeError e) = some e := by
  cases e <;> rfl

theorem decodeError_sound {v : Value} {e : Option String}
    (h : decodeError v = some e) : v = encodeError e := by
  cases v with
  | nil =>
      injection h with h
      subst h
      rfl
  | str s =>
      injection h with h
      subst h
      rfl
  | bool b => exact absurd h (by simp [decodeError])
  | int n => exact absurd h (by simp [decodeError])
  | arr vs => exact absurd h (by simp [decodeError])

theorem decode_encode (m : RPCMessage) :
    decodeMessage (encodeMessage m) = some m := by
  cases m with
  | request id method args =>
      simp [encodeMessage, decodeMessage, Int.toNat_natCast, Int.natCast_nonneg]
  | response id error result =>
      simp [encodeMessage, decodeMessage, decodeError_encodeError,
        Int.toNat_natCast, Int.natCast_nonneg]
  | notification method args =>
      simp [encodeMessage, decodeMessage]

theorem decode_sound {v : Value} {m : RPCMessage}
    (h : decodeMessage v = some m) : v = encodeMessage m := by
  unfold decodeMessage at h
  split at h
  · rename_i t i x y
    split at h
    · rename_i ht
      split at h
      · rename_i method args
        split at h
        · rename_i hi
          cases h
          simp [encodeMessage, ht, Int.toNat_of_nonneg hi]
        · exact absurd h (by simp)
      · exact absurd h (by simp)
    · split at h
      · rename_i ht0 ht1
        split at h
        · rename_i hi
          cases he : decodeError x with
          | none => rw [he] at h; exact absurd h (by simp)
          | some e =>
              rw [he] at h
              cases h
              simp [encodeMessage, ht1, Int.toNat_of_nonneg hi,
                decodeError_sound he]
        · exact absurd h (by simp)
      · exact absurd h (by simp)
  · rename_i t method args
    split at h
    · rename_i ht
      cases h
      simp [encodeMessage, ht]
    · exact absurd h (by simp)
  · exact absurd h (by simp)


/-! ## Claim theorems -/

/-- C8: every wire message is one of exactly three fixed-arity ordered
sequences tagged by a leading integer discriminant — (0, id, method, args),
(1, id, error, result), (2, method, args) — and no other shape or
discriminant value is produced or accepted as an `RPCMessage`: a wire value
decodes to a message exactly when it is that message's encoding. -/
theorem rpc_message_shapes (v : Value) (m : RPCMessage) :
    decodeMessage v = some m ↔ v = encodeMessage m := by
  constructor
  · exact decode_sound
  · intro h
    subst h
    exact decode_encode m

/-- C2: `detach()` transitions the engine to `Detached`, closes the
Transport, resolves every pending call (all N of them) with a
connection-closed error, clears both handler registries, is idempotent, and
every `call()` issued afterwards fails immediately with no message written
to the Transport. -/
theorem detach_contract (e : Engine) (method : String) (args : List Value) :
    e.detach.1.connState = ConnState.Detached ∧
    e.detach.1.transportClosed = true ∧
    e.detach.1.pending = [] ∧
    e.detach.1.notifHandlers = [] ∧
    e.detach.1.reqHandlers = [] ∧
    e.detach.2 = e.pending.map (fun i => (i, CallOutcome.err "connection closed")) ∧
    e.detach.1.detach = (e.detach.1, []) ∧
    (e.detach.1.call method args).2 = CallStart.failedClosed ∧
    (e.detach.1.call method args).1.wire = e.detach.1.wire := by
  cases e
  simp [Engine.detach, Engine.call]

/-- C10: `detach()` is a synchronous, total operation — modelled as a pure
Lean function it is defined (never throws) on every engine state, including
one already detached, where it is a no-op; its TypeScript signature
`detach(): void` returns no value, the resolution list here being the
side-effect on pending calls.  It is therefore always safe from a cleanup
path. -/
theorem detach_always_safe (e : Engine) :
    e.detach.1.connState = ConnState.Detached ∧
    e.detach.1.transportClosed = true ∧
    e.detach.1.detach = (e.detach.1, []) := by
  cases e
  simp [Engine.detach]

/-- C9: a Response carries both fields in fixed positions: slot 2 (the error
field) is always present and is either nil (null) or a string, slot 3 (the
result) is always present; a call succeeds exactly when the error is null;
and every Response the engine's request dispatch writes never pairs a
non-null error with a meaningful result (the result slot is nil whenever the
error is set). -/
theorem response_fields (id : Nat) (error : Option String) (result : Value)
    (e : Engine) (method : String) (args : List Value) :
    encodeMessage (.response id error result)
      = .arr [.int 1, .int id, encodeError error, result] ∧
    (encodeError error = Value.nil ∨ ∃ s, encodeError error = Value.str s) ∧
    (encodeError error = Value.nil ↔ error = none) ∧
    ((mkOutcome error result).isOk = true ↔ error = none) ∧
    (∀ m ∈ (e.handleRequest id method args).wire, m ∈ e.wire ∨ goodResponse m) := by
  refine ⟨rfl, ?_, ?_, ?_, ?_⟩
  · cases error with
    | none => exact Or.inl rfl
    | some s => exact Or.inr ⟨s, rfl⟩
  · cases error <;> simp [encodeError]
  · cases error <;> simp [mkOutcome, CallOutcome.isOk]
  · intro m hm
    simp only [Engine.handleRequest, List.mem_append, List.mem_singleton] at hm
    rcases hm with hm | hm
    · exact Or.inl hm
    · subst hm
      right
      cases hg : assocGet e.reqHandlers method with
      | none => simp [hg, goodResponse]
      | some h =>
          cases hr : h args with
          | ok r => simp [hg, hr, goodResponse]
          | err msg => simp [hg, hr, goodResponse]

/-- Witness for C9 at concrete inputs: an error Response produced for a
failing handler on the initial engine. -/
theorem response_fields_witness :
    encodeMessage (.response 7 (some "E") Value.nil)
      = .arr [.int 1, .int 7, encodeError (some "E"), Value.nil] ∧
    (encodeError (some "E") = Value.nil ∨ ∃ s, encodeError (some "E") = Value.str s) ∧
    (encodeError (some "E") = Value.nil ↔ (some "E" : Option String) = none) ∧
    ((mkOutcome (some "E") Value.nil).isOk = true ↔ (some "E" : Option String) = none) ∧
    (∀ m ∈ (initEngine.handleRequest 7 "m" []).wire,
      m ∈ initEngine.wire ∨ goodResponse m) :=
  response_fields 7 (some "E") Value.nil initEngine "m" []

theorem assocSet_countP {α : Type} (l : List (String × α)) (key : String)
    (v : α) (h : l.countP (fun p => p.1 == key) ≤ 1) :
    (assocSet l key v).countP (fun p => p.1 == key) = 1 := by
  induction l with
  | nil => simp [assocSet]
  | cons hd tl ih =>
      obtain ⟨k, v'⟩ := hd
      by_cases hk : k = key
      · simp [assocSet, hk, List.countP_cons] at h ⊢
        exact h
      · simp [assocSet, hk, List.countP_cons] at h ⊢
        exact ih h

theorem handleRequest_wire (e : Engine) (h : RequestHandler)
    (method : String) (hh : assocGet e.reqHandlers method = some h)
    (id : Nat) (args : List Value) :
    (e.handleRequest id method args).wire =
      e.wire ++ [match h args with
                 | .ok r => RPCMessage.response id none r
                 | .err msg => RPCMessage.response id (some msg) Value.nil] := by
  cases hr : h args <;> simp [Engine.handleRequest, hh, hr]

/-- C3: for an incoming Request whose method has a registered handler, the
engine writes exactly one Response carrying the same id: the handler's return
value as `result` with a null error if it returns, or the failure's message
as `error` with the result slot nil if it throws.  The Request is never left
unanswered. -/
theorem request_dispatch_registered (e : Engine) (h : RequestHandler)
    (method : String) (hh : assocGet e.reqHandlers method = some h)
    (id : Nat) (args : List Value) :
    (e.handleRequest id method args).wire =
      e.wire ++ [match h args with
                 | .ok r => RPCMessage.response id none r
                 | .err msg => RPCMessage.response id (some msg) Value.nil] :=
  handleRequest_wire e h method hh id args

/-- Witness for C3: a handler registered for `"m"` on the fresh engine
answers an incoming Request with id 5 by exactly one Response with id 5
carrying its return value. -/
theorem request_dispatch_registered_witness :
    ((initEngine.onRequest "m" (fun _ => CallOutcome.ok (Value.int 42))).handleRequest
        5 "m" []).wire =
      (initEngine.onRequest "m" (fun _ => CallOutcome.ok (Value.int 42))).wire ++
        [RPCMessage.response 5 none (Value.int 42)] :=
  request_dispatch_registered
    (initEngine.onRequest "m" (fun _ => CallOutcome.ok (Value.int 42)))
    (fun _ => CallOutcome.ok (Value.int 42)) "m"
    (assocGet_assocSet initEngine.reqHandlers "m"
      (fun _ => CallOutcome.ok (Value.int 42))) 5 []

/-- C5: an incoming Request for a method with no registered handler still
receives exactly one Response for its id, with a non-null unknown-method
error and a nil result, and the connection stays open (state and transport
unchanged); it is never silently ignored. -/
theorem request_dispatch_unknown (e : Engine) (method : String)
    (hh : assocGet e.reqHandlers method = none) (id : Nat) (args : List Value) :
    (e.handleRequest id method args).wire
        = e.wire ++ [RPCMessage.response id (some ("unknown method " ++ method)) Value.nil] ∧
    (e.handleRequest id method args).connState = e.connState ∧
    (e.handleRequest id method args).transportClosed = e.transportClosed := by
  simp [Engine.handleRequest, hh]

/-- Witness for C5: the fresh engine answers a Request for the unregistered
method `"nope"` with one unknown-method error Response and stays open. -/
theorem request_dispatch_unknown_witness :
    (initEngine.handleRequest 3 "nope" []).wire
        = initEngine.wire ++
            [RPCMessage.response 3 (some ("unknown method " ++ "nope")) Value.nil] ∧
    (initEngine.handleRequest 3 "nope" []).connState = initEngine.connState ∧
    (initEngine.handleRequest 3 "nope" []).transportClosed
        = initEngine.transportClosed :=
  request_dispatch_unknown initEngine "nope" rfl 3 []

/-- C7: `onRequest` keeps at most one handler per method: registering a
second handler for the same name silently replaces the first — afterwards the
registry holds exactly one entry for the name, lookup yields the most recent
handler, and an incoming Request for the method is answered from the second
handler, never the first. -/
theorem onRequest_last_wins (e : Engine) (method : String)
    (h1 h2 : RequestHandler)
    (hcount : e.reqHandlers.countP (fun p => p.1 == method) ≤ 1)
    (id : Nat) (args : List Value) :
    assocGet ((e.onRequest method h1).onRequest method h2).reqHandlers method
        = some h2 ∧
    ((e.onRequest method h1).onRequest method h2).reqHandlers.countP
        (fun p => p.1 == method) = 1 ∧
    (((e.onRequest method h1).onRequest method h2).handleRequest id method args).wire
      = ((e.onRequest method h1).onRequest method h2).wire ++
          [match h2 args with
           | .ok r => RPCMessage.response id none r
           | .err msg => RPCMessage.response id (some msg) Value.nil] := by
  refine ⟨assocGet_assocSet _ _ _, ?_, ?_⟩
  · exact assocSet_countP _ _ _ (le_of_eq (assocSet_countP _ _ _ hcount))
  · exact handleRequest_wire _ h2 method (assocGet_assocSet _ _ _) id args

/-- Witness for C7: after registering two handlers for `"m"`, only the
second's result answers an incoming Request. -/
theorem onRequest_last_wins_witness :
    assocGet ((initEngine.onRequest "m" (fun _ => CallOutcome.ok Value.nil)).onRequest
        "m" (fun _ => CallOutcome.ok (Value.int 1))).reqHandlers "m"
      = some (fun _ => CallOutcome.ok (Value.int 1)) ∧
    ((initEngine.onRequest "m" (fun _ => CallOutcome.ok Value.nil)).onRequest
        "m" (fun _ => CallOutcome.ok (Value.int 1))).reqHandlers.countP
        (fun p => p.1 == "m") = 1 ∧
    (((initEngine.onRequest "m" (fun _ => CallOutcome.ok Value.nil)).onRequest
        "m" (fun _ => CallOutcome.ok (Value.int 1))).handleRequest 9 "m" []).wire
      = ((initEngine.onRequest "m" (fun _ => CallOutcome.ok Value.nil)).onRequest
          "m" (fun _ => CallOutcome.ok (Value.int 1))).wire ++
          [RPCMessage.response 9 none (Value.int 1)] :=
  onRequest_last_wins initEngine "m" (fun _ => CallOutcome.ok Value.nil)
    (fun _ => CallOutcome.ok (Value.int 1)) (by decide) 9 []

theorem runNotif_invoked (args : List Value)
    (hs : List (Nat × NotificationHandler)) :
    (runNotifHandlers args hs).2 = hs.map Prod.fst := by
  induction hs with
  | nil => rfl
  | cons hd tl ih =>
      obtain ⟨k, h⟩ := hd
      cases hr : h args <;> simp [runNotifHandlers, hr, ih]

theorem runNotif_remaining (args : List Value)
    (hs : List (Nat × NotificationHandler)) :
    (runNotifHandlers args hs).1 = hs.filter (fun p => ! p.2 args) := by
  induction hs with
  | nil => rfl
  | cons hd tl ih =>
      obtain ⟨k, h⟩ := hd
      cases hr : h args <;> simp [runNotifHandlers, List.filter, hr, ih]

theorem nodup_keys_eq {α : Type} {L : List (Nat × α)}
    (hnd : (L.map Prod.fst).Nodup) {k : Nat} {a b : α}
    (ha : (k, a) ∈ L) (hb : (k, b) ∈ L) : a = b := by
  induction L with
  | nil => cases ha
  | cons hd tl ih =>
      rw [List.map_cons, List.nodup_cons] at hnd
      rcases List.mem_cons.mp ha with ha' | ha' <;>
        rcases List.mem_cons.mp hb with hb' | hb'
      · exact congrArg Prod.snd (ha'.trans hb'.symm)
      · have hk : (k : Nat) ∈ tl.map Prod.fst := List.mem_map_of_mem Prod.fst hb'
        rw [← ha'] at hnd
        exact absurd hk hnd.1
      · have hk : (k : Nat) ∈ tl.map Prod.fst := List.mem_map_of_mem Prod.fst ha'
        rw [← hb'] at hnd
        exact absurd hk hnd.1
      · exact ih hnd.2 ha' hb'

/-- C6: a notification handler whose invocation returns the removal signal is
invoked this time but deregistered afterwards, so it is not invoked on the
next occurrence of the notification; every other handler registered for the
same name that did not signal removal stays registered and is invoked on the
next occurrence. -/
theorem notification_handler_removal (e : Engine) (name : String)
    (args args2 : List Value) (k k2 : Nat) (h h2 : NotificationHandler)
    (hnd : (((assocGet e.notifHandlers name).getD []).map Prod.fst).Nodup)
    (hmem : (k, h) ∈ (assocGet e.notifHandlers name).getD [])
    (hrem : h args = true)
    (hmem2 : (k2, h2) ∈ (assocGet e.notifHandlers name).getD [])
    (hkeep : h2 args = false) :
    k ∈ (e.handleNotification name args).2 ∧
    (k2, h2) ∈ (assocGet (e.handleNotification name args).1.notifHandlers name).getD [] ∧
    k ∉ ((e.handleNotification name args).1.handleNotification name args2).2 ∧
    k2 ∈ ((e.handleNotification name args).1.handleNotification name args2).2 := by
  have hstep : ∀ (e' : Engine) (ar : List Value), (e'.handleNotification name ar).2
      = ((assocGet e'.notifHandlers name).getD []).map Prod.fst := by
    intro e' ar
    simp [Engine.handleNotification, runNotif_invoked]
  have hrem1 : (assocGet (e.handleNotification name args).1.notifHandlers name).getD []
      = ((assocGet e.notifHandlers name).getD []).filter (fun p => ! p.2 args) := by
    show (assocGet (assocSet e.notifHandlers name
        (runNotifHandlers args ((assocGet e.notifHandlers name).getD [])).1) name).getD []
      = _
    rw [assocGet_assocSet, Option.getD_some, runNotif_remaining]
  refine ⟨?_, ?_, ?_, ?_⟩
  · rw [hstep]
    exact List.mem_map_of_mem Prod.fst hmem
  · rw [hrem1]
    exact List.mem_filter.mpr ⟨hmem2, by simp [hkeep]⟩
  · rw [hstep, hrem1]
    intro hkmem
    obtain ⟨p, hpF, hpk⟩ := List.mem_map.mp hkmem
    obtain ⟨kp, hp⟩ := p
    have hpL := (List.mem_filter.mp hpF).1
    have hpB := (List.mem_filter.mp hpF).2
    have hpk' : kp = k := hpk
    subst hpk'
    have hph : hp = h := nodup_keys_eq hnd hpL hmem
    rw [hph] at hpB
    simp [hrem] at hpB
  · rw [hstep, hrem1]
    exact List.mem_map_of_mem Prod.fst (List.mem_filter.mpr ⟨hmem2, by simp [hkeep]⟩)

/-- Witness for C6: on an engine with two handlers for `"evt"`, the
removal-signalling handler (key 0) is invoked once and gone on the second
occurrence, while the other handler (key 1) stays and is invoked again. -/
theorem notification_handler_removal_witness :
    0 ∈ (twoHandlerEngine.handleNotification "evt" []).2 ∧
    (1, neverRemove)
        ∈ (assocGet (twoHandlerEngine.handleNotification "evt" []).1.notifHandlers
            "evt").getD [] ∧
    0 ∉ ((twoHandlerEngine.handleNotification "evt" []).1.handleNotification "evt" []).2 ∧
    1 ∈ ((twoHandlerEngine.handleNotification "evt" []).1.handleNotification "evt" []).2 :=
  notification_handler_removal twoHandlerEngine "evt" [] [] 0 1 alwaysRemove neverRemove
    (by decide)
    (List.mem_cons_self _ _)
    rfl
    (List.mem_cons_of_mem _ (List.mem_cons_self _ _))
    rfl

theorem deliver_correlation (e : Engine)
    (resps : List (Nat × Option String × Value))
    (hsub : ∀ r ∈ resps, r.1 ∈ e.pending)
    (hnd : (resps.map (fun r => r.1)).Nodup) :
    (e.deliverResponses resps).2
      = resps.map (fun r => (r.1, mkOutcome r.2.1 r.2.2)) := by
  induction resps generalizing e with
  | nil => rfl
  | cons hd tl ih =>
      obtain ⟨i, error, result⟩ := hd
      have hi : i ∈ e.pending := hsub _ (List.mem_cons_self _ _)
      rw [List.map_cons, List.nodup_cons] at hnd
      have htl : ((e.onResponse i error result).1.deliverResponses tl).2
          = tl.map (fun r => (r.1, mkOutcome r.2.1 r.2.2)) := by
        apply ih
        · intro r hr
          have hne : r.1 ≠ i := by
            intro hEq
            exact hnd.1 (hEq ▸ List.mem_map_of_mem (fun r => r.1) hr)
          have hrp : r.1 ∈ e.pending := hsub r (List.mem_cons_of_mem _ hr)
          simp [Engine.onResponse, hi]
          exact (List.mem_erase_of_ne hne).mpr hrp
        · exact hnd.2
      simp [Engine.deliverResponses, Engine.onResponse, hi] at htl ⊢
      exact htl

theorem issueCalls_open (e : Engine) (calls : List (String × List Value))
    (hopen : e.connState = ConnState.Open) :
    (e.issueCalls calls).2 = List.range' e.nextId calls.length ∧
    (e.issueCalls calls).1.pending
        = e.pending ++ List.range' e.nextId calls.length ∧
    (e.issueCalls calls).1.connState = ConnState.Open := by
  induction calls generalizing e with
  | nil => simp [Engine.issueCalls, hopen]
  | cons hd tl ih =>
      obtain ⟨method, args⟩ := hd
      have hcall : e.call method args
          = ({ e with
                nextId := e.nextId + 1
                pending := e.pending ++ [e.nextId]
                wire := e.wire ++ [.request e.nextId method args] },
              .started e.nextId) := by
        rw [Engine.call, hopen]
      obtain ⟨ih1, ih2, ih3⟩ := ih
        { e with
            nextId := e.nextId + 1
            pending := e.pending ++ [e.nextId]
            wire := e.wire ++ [.request e.nextId method args] } hopen
      refine ⟨?_, ?_, ?_⟩ <;>
        simp [Engine.issueCalls, hcall, ih1, ih2, ih3, List.range'_succ,
          List.append_assoc]

/-- C1: for a batch of concurrently issued `call()`s on an Open engine, with
the Responses arriving in any order (any permutation of the issued request
ids), every invocation resolves, and each resolution pairs a request id with
the outcome built from the error/result of the Response carrying exactly that
id — correlation is by id only, never by send order. -/
theorem call_correlation (e : Engine) (hopen : e.connState = ConnState.Open)
    (calls : List (String × List Value))
    (resps : List (Nat × Option String × Value))
    (hperm : List.Perm (resps.map (fun r => r.1)) (e.issueCalls calls).2) :
    ((e.issueCalls calls).1.deliverResponses resps).2
        = resps.map (fun r => (r.1, mkOutcome r.2.1 r.2.2)) ∧
    ((e.issueCalls calls).1.deliverResponses resps).2.length = calls.length := by
  obtain ⟨hids, hpend, -⟩ := issueCalls_open e calls hopen
  have hnd : (resps.map (fun r => r.1)).Nodup := by
    refine hperm.nodup_iff.mpr ?_
    rw [hids]
    exact List.nodup_range' _ _
  have hsub : ∀ r ∈ resps, r.1 ∈ (e.issueCalls calls).1.pending := by
    intro r hr
    rw [hpend, ← hids]
    exact List.mem_append.mpr (Or.inr (hperm.subset (List.mem_map_of_mem _ hr)))
  have hmain := deliver_correlation _ resps hsub hnd
  refine ⟨hmain, ?_⟩
  rw [hmain, List.length_map]
  have h1 : resps.length = (e.issueCalls calls).2.length := by
    have h2 := hperm.length_eq
    rwa [List.length_map] at h2
  rw [h1, hids, List.length_range']

/-- Witness for C1: two calls issued on the fresh engine get ids 0 and 1;
delivering the Responses in reverse order still pairs id 1 with its own
error and id 0 with its own result. -/
theorem call_correlation_witness :
    ((initEngine.issueCalls [("a", []), ("b", [])]).1.deliverResponses
        [(1, some "boom", Value.nil), (0, none, Value.int 7)]).2
      = [(1, CallOutcome.err "boom"), (0, CallOutcome.ok (Value.int 7))] ∧
    ((initEngine.issueCalls [("a", []), ("b", [])]).1.deliverResponses
        [(1, some "boom", Value.nil), (0, none, Value.int 7)]).2.length = 2 :=
  call_correlation initEngine rfl [("a", []), ("b", [])]
    [(1, some "boom", Value.nil), (0, none, Value.int 7)] (by decide)

theorem chanCalls_cached (e : Engine) (n : Nat)
    (h : e.bootState = BootState.cached n) (k : Nat) :
    e.channelIdCalls k = (e, List.replicate k (some n)) := by
  induction k with
  | zero => rfl
  | succ k ih =>
      have hreq : e.channelIdRequest = (e, some n) := by
        simp [Engine.channelIdRequest, h]
      simp [Engine.channelIdCalls, hreq, ih, List.replicate_succ]

theorem channelIdCalls_succ (e : Engine) (k : Nat) :
    e.channelIdCalls (k + 1)
      = ((e.channelIdRequest.1.channelIdCalls k).1,
          e.channelIdRequest.2 :: (e.channelIdRequest.1.channelIdCalls k).2) := rfl

theorem chanCalls_inFlight : ∀ (k : Nat) (e : Engine) (rid w : Nat),
    e.bootState = BootState.inFlight rid w →
    e.channelIdCalls k
      = ({ e with bootState := .inFlight rid (w + k) }, List.replicate k none)
  | 0, e, rid, w, h => by
      cases e
      simp only at h
      subst h
      simp [Engine.channelIdCalls]
  | k + 1, e, rid, w, h => by
      have hreq : e.channelIdRequest
          = ({ e with bootState := .inFlight rid (w + 1) }, none) := by
        simp [Engine.channelIdRequest, h]
      have ih := chanCalls_inFlight k
        { e with bootState := .inFlight rid (w + 1) } rid (w + 1) rfl
      rw [channelIdCalls_succ, hreq, ih]
      have harith : w + 1 + k = w + (k + 1) := by omega
      rw [harith]
      rfl

/-- C4: over any number of `channelId()` invocations the engine writes at
most one bootstrap message in total; once the value is cached every
invocation returns the same integer with the engine (hence the wire and the
cache) wholly unchanged; and when the first invocations race from the idle
state, exactly one `nvim_get_api_info` bootstrap Request goes on the wire,
all k callers become waiters of the one in-flight call, and the bootstrap
Response hands the same extracted integer to all of them and caches it. -/
theorem channelId_memoized (e : Engine) (k n chan : Nat) :
    (e.channelIdCalls k).1.wire.length ≤ e.wire.length + 1 ∧
    (e.bootState = BootState.cached n →
      e.channelIdCalls k = (e, List.replicate k (some n))) ∧
    (e.bootState = BootState.idle → 0 < k →
      (e.channelIdCalls k).1.wire
          = e.wire ++ [RPCMessage.request e.nextId "nvim_get_api_info" []] ∧
      (e.channelIdCalls k).1.bootState = BootState.inFlight e.nextId k ∧
      ((e.channelIdCalls k).1.bootstrapResolve chan).2 = List.replicate k chan ∧
      ((e.channelIdCalls k).1.bootstrapResolve chan).1.bootState
          = BootState.cached chan) := by
  refine ⟨?_, fun hc => chanCalls_cached e n hc k, fun hidle hk => ?_⟩
  · cases hb : e.bootState with
    | idle =>
        cases k with
        | zero => simp [Engine.channelIdCalls]
        | succ k' =>
            have hreq : e.channelIdRequest
                = ({ e with
                      nextId := e.nextId + 1
                      pending := e.pending ++ [e.nextId]
                      wire := e.wire ++ [.request e.nextId "nvim_get_api_info" []]
                      bootState := .inFlight e.nextId 1 }, none) := by
              simp [Engine.channelIdRequest, hb]
            have h2 := chanCalls_inFlight k'
              { e with
                  nextId := e.nextId + 1
                  pending := e.pending ++ [e.nextId]
                  wire := e.wire ++ [.request e.nextId "nvim_get_api_info" []]
                  bootState := .inFlight e.nextId 1 } e.nextId 1 rfl
            rw [channelIdCalls_succ, hreq, h2]
            simp
    | inFlight rid w =>
        rw [chanCalls_inFlight k e rid w hb]
        exact Nat.le_succ _
    | cached nn =>
        rw [chanCalls_cached e nn hb k]
        exact Nat.le_succ _
  · cases k with
    | zero => exact absurd hk (by omega)
    | succ k' =>
        have hreq : e.channelIdRequest
            = ({ e with
                  nextId := e.nextId + 1
                  pending := e.pending ++ [e.nextId]
                  wire := e.wire ++ [.request e.nextId "nvim_get_api_info" []]
                  bootState := .inFlight e.nextId 1 }, none) := by
          simp [Engine.channelIdRequest, hidle]
        have h2 := chanCalls_inFlight k'
          { e with
              nextId := e.nextId + 1
              pending := e.pending ++ [e.nextId]
              wire := e.wire ++ [.request e.nextId "nvim_get_api_info" []]
              bootState := .inFlight e.nextId 1 } e.nextId 1 rfl
        have hone : 1 + k' = k' + 1 := by omega
        rw [channelIdCalls_succ, hreq, h2, hone]
        refine ⟨rfl, rfl, ?_, ?_⟩ <;> simp [Engine.bootstrapResolve]

/-- Witness for C4: two concurrent first invocations of `channelId()` on the
fresh engine put exactly one bootstrap Request on the wire, and the bootstrap
Response delivers the same channel id 9 to both waiting callers. -/
theorem channelId_memoized_witness :
    (initEngine.channelIdCalls 2).1.wire.length ≤ initEngine.wire.length + 1 ∧
    (initEngine.channelIdCalls 2).1.wire
        = initEngine.wire
            ++ [RPCMessage.request initEngine.nextId "nvim_get_api_info" []] ∧
    ((initEngine.channelIdCalls 2).1.bootstrapResolve 9).2 = List.replicate 2 9 :=
  ⟨(channelId_memoized initEngine 2 0 9).1,
    ((channelId_memoized initEngine 2 0 9).2.2 rfl (by omega)).1,
    ((channelId_memoized initEngine 2 0 9).2.2 rfl (by omega)).2.2.1⟩
